import Mathlib

/-!
Shallow embedding of the `IoTSFT` smart contract (contracts/IoTSFT.sol, the
twelve-device-type variant with device groups and the device-package trading
system), together with proofs of the specified properties.

Addresses, token ids, slots and values are natural numbers.  A revert of the
transactional host is modelled by `Except`: an operation returns `.ok st` with
the post-state, or `.error e`; on `.error` the caller keeps the pre-state
(all-or-nothing semantics), which `run` below makes explicit.
-/

namespace IoTSFT

abbrev Address := Nat
abbrev TokenId := Nat
abbrev Slot := Nat

/-- Device types of the contract (enum DeviceType, twelve members). -/
inductive DeviceType where
  | TemperatureSensor
  | CrowdDensitySensor
  | HumiditySensor
  | PressureSensor
  | MotionSensor
  | LightSensor
  | SoundSensor
  | AirQualitySensor
  | GPSTracker
  | Camera
  | Actuator
  | Controller
deriving DecidableEq

/-- Modelled from the spec: the per-token record of the underlying ERC-3525
base standard, an external collaborator whose code is not in this repository.
The spec's data model gives a token `owner` (address), `slot` (category,
immutable) and `value` (non-negative integer balance). -/
structure TokenData where
  owner : Address
  slot : Slot
  value : Nat
deriving DecidableEq

/-- struct DevicePackage of the contract. -/
structure DevicePackage where
  packageId : Nat
  packageName : String
  deviceTypes : List DeviceType
  totalValue : Nat
  availableValue : Nat
  isActive : Bool
deriving DecidableEq

/-- Solidity default value of a `DevicePackage` storage slot (all fields
zero-initialised, `isActive` false). -/
def defaultPackage : DevicePackage :=
  { packageId := 0, packageName := "", deviceTypes := [], totalValue := 0,
    availableValue := 0, isActive := false }

/-- Contract storage.  Mappings are association lists where an assignment
prepends an entry and a read takes the first match, defaulting like Solidity
storage when no entry exists.  `tokens` is kept in creation order: the base
standard appends a token to its owner's enumeration when it is minted, and no
operation of this contract changes a token's owner, so filtering `tokens` by
owner reproduces `tokenOfOwnerByIndex` enumeration order. -/
structure ContractState where
  tokens : List (TokenId × TokenData)
  tokenIdCounter : Nat
  deviceToSlot : List (DeviceType × Slot)
  contractOwner : Address
  devicePackages : List (Nat × DevicePackage)
  tokenToPackage : List (TokenId × Nat)
  packageIdCounter : Nat
deriving DecidableEq

/-- Errors: each constructor stands for one distinct revert reason. -/
inductive CErr where
  | NotContractOwner
  | InvalidTokenId
  | InsufficientValue
  | NotTokenOwner
  | DifferentSlots
  | ArraysLengthMismatch
  | NotPackageOwner
  | PackageNotActive
  | InsufficientPackageValue
  | IncompatibleDeviceType
deriving DecidableEq

/-- Update the value of every entry for a token id, leaving owner and slot
untouched (value is the only field the base standard's value transfer and
burn primitives write). -/
def updateValue (l : List (TokenId × TokenData)) (id : TokenId) (f : Nat → Nat) :
    List (TokenId × TokenData) :=
  l.map (fun p => (p.1, if p.1 = id then { p.2 with value := f p.2.value } else p.2))

/-- Lookup of a token record (first entry wins, as in a keyed storage table). -/
def lookupToken (st : ContractState) (id : TokenId) : Option TokenData :=
  st.tokens.lookup id

/-- Modelled from the spec: `slotOf` read accessor of the base standard;
fails on an id with no token record. -/
def slotOf (st : ContractState) (id : TokenId) : Except CErr Slot :=
  match lookupToken st id with
  | some d => .ok d.slot
  | none => .error .InvalidTokenId

/-- Modelled from the spec: `ownerOf` read accessor of the base standard;
fails on an id with no token record. -/
def ownerOf (st : ContractState) (id : TokenId) : Except CErr Address :=
  match lookupToken st id with
  | some d => .ok d.owner
  | none => .error .InvalidTokenId

/-- Modelled from the spec: per-token `balanceOf(tokenId)` read accessor of
the base standard; fails on an id with no token record. -/
def balanceOfToken (st : ContractState) (id : TokenId) : Except CErr Nat :=
  match lookupToken st id with
  | some d => .ok d.value
  | none => .error .InvalidTokenId

/-- Balance of a token id as a total function (0 when no record exists);
used to state conservation properties. -/
def tokenValue (st : ContractState) (id : TokenId) : Nat :=
  ((lookupToken st id).map TokenData.value).getD 0

/-- Slot of a token id as a partial function; used to state slot properties. -/
def tokenSlot (st : ContractState) (id : TokenId) : Option Slot :=
  (lookupToken st id).map TokenData.slot

/-- Modelled from the spec: the base standard's internal mint primitive.
Per the spec it creates a token record owned by the recipient with the given
slot and value under a fresh, never-reused id; minting an id that already has
a record is refused.  The spec lists no further failure mode for mint
(a zero value is explicitly permitted). -/
def _mint (st : ContractState) (toAddr : Address) (tokenId : TokenId) (slot : Slot)
    (value : Nat) : Except CErr ContractState :=
  if (lookupToken st tokenId).isSome then .error .InvalidTokenId
  else .ok { st with tokens := st.tokens ++ [(tokenId, ⟨toAddr, slot, value⟩)] }

/-- Modelled from the spec: the base standard's internal value-burn primitive:
decrease the token's value by the burned amount (the record persists, possibly
with zero balance); fails when no record exists or the balance is
insufficient. -/
def _burnValue (st : ContractState) (tokenId : TokenId) (amount : Nat) :
    Except CErr ContractState :=
  match lookupToken st tokenId with
  | some d =>
    if d.value < amount then .error .InsufficientValue
    else .ok { st with tokens := updateValue st.tokens tokenId (fun v => v - amount) }
  | none => .error .InvalidTokenId

/-- Modelled from the spec: the base standard's internal value-transfer
primitive: atomically move `amount` from the source record's value to the
destination record's value.  Both ids must have a token record (the spec's
data model only lets value reside in a created token, so a transfer touching
an id with no record cannot update any record and fails, as in the base
standard), the source balance must suffice, and both records must share a
slot. -/
def _transferValue (st : ContractState) (fromId toId : TokenId) (amount : Nat) :
    Except CErr ContractState :=
  match lookupToken st fromId, lookupToken st toId with
  | some fd, some td =>
    if fd.value < amount then .error .InsufficientValue
    else if fd.slot ≠ td.slot then .error .DifferentSlots
    else .ok { st with
      tokens := updateValue (updateValue st.tokens fromId (fun v => v - amount)) toId
        (fun v => v + amount) }
  | _, _ => .error .InvalidTokenId

/-- Mapping read with Solidity default 0: deviceToSlot[deviceType]. -/
def deviceSlotOf (st : ContractState) (d : DeviceType) : Slot :=
  (st.deviceToSlot.lookup d).getD 0

/-- function initializeDeviceGroups() external onlyOwner. -/
def initializeDeviceGroups (st : ContractState) (caller : Address) :
    Except CErr ContractState :=
  if caller ≠ st.contractOwner then .error .NotContractOwner
  else .ok { st with deviceToSlot :=
    [(DeviceType.TemperatureSensor, 0), (DeviceType.HumiditySensor, 0),
     (DeviceType.PressureSensor, 0), (DeviceType.LightSensor, 0),
     (DeviceType.SoundSensor, 0), (DeviceType.AirQualitySensor, 0),
     (DeviceType.CrowdDensitySensor, 1), (DeviceType.MotionSensor, 1),
     (DeviceType.GPSTracker, 1), (DeviceType.Camera, 1),
     (DeviceType.Actuator, 2), (DeviceType.Controller, 2)] }

/-- function mint(address to, DeviceType deviceType, uint256 value) external
onlyOwner. -/
def mint (st : ContractState) (caller toAddr : Address) (deviceType : DeviceType)
    (value : Nat) : Except CErr ContractState :=
  if caller ≠ st.contractOwner then .error .NotContractOwner
  else
    let tokenId := st.tokenIdCounter
    let st1 := { st with tokenIdCounter := st.tokenIdCounter + 1 }
    let slot := deviceSlotOf st1 deviceType
    _mint st1 toAddr tokenId slot value

/-- function splitValue(uint256 tokenId, uint256 amount, address to) external.
No caller check is performed, matching the source. -/
def splitValue (st : ContractState) (tokenId : TokenId) (amount : Nat)
    (toAddr : Address) : Except CErr ContractState := do
  let bal ← balanceOfToken st tokenId
  if bal < amount then .error .InsufficientValue
  else
    let st1 ← _burnValue st tokenId amount
    let slot ← slotOf st1 tokenId
    let newTokenId := st1.tokenIdCounter
    let st2 := { st1 with tokenIdCounter := st1.tokenIdCounter + 1 }
    _mint st2 toAddr newTokenId slot amount

/-- function mergeValue(uint256 fromTokenId, uint256 toTokenId, uint256
amount) external. -/
def mergeValue (st : ContractState) (caller : Address) (fromTokenId toTokenId : TokenId)
    (amount : Nat) : Except CErr ContractState := do
  let own ← ownerOf st fromTokenId
  if own ≠ caller then .error .NotTokenOwner
  else
    let sf ← slotOf st fromTokenId
    let sd ← slotOf st toTokenId
    if sf ≠ sd then .error .DifferentSlots
    else _transferValue st fromTokenId toTokenId amount

/-- Token ids a holder owns, in enumeration order (see `ContractState`):
the loop over tokenOfOwnerByIndex(owner, i) for i below balanceOf(owner). -/
def ownedTokens (st : ContractState) (owner : Address) : List TokenId :=
  (st.tokens.filter (fun p => p.2.owner == owner)).map Prod.fst

/-- Token ids a holder owns in a given slot, in enumeration order: the
collection loops of getTokensBySlot, optimizeSlot and benchmarkOptimizeSlot
(iterate the holder's tokens, keep those whose slotOf matches). -/
def tokensOfOwnerBySlot (st : ContractState) (owner : Address) (slot : Slot) :
    List TokenId :=
  (st.tokens.filter (fun p => p.2.owner == owner && p.2.slot == slot)).map Prod.fst

/-- Body of the batch-merge loops of mergeAllToTarget and optimizeSlot:
for each collected token, read its balance and, when positive, transfer all
of it into the target token. -/
def mergeLoop (targetToken : TokenId) :
    List TokenId → ContractState → Except CErr ContractState
  | [], st => .ok st
  | t :: rest, st => do
      let tokenBalance ← balanceOfToken st t
      if 0 < tokenBalance then do
        let st1 ← _transferValue st t targetToken tokenBalance
        mergeLoop targetToken rest st1
      else mergeLoop targetToken rest st

/-- function mergeAllToTarget(uint256 targetTokenId) external. -/
def mergeAllToTarget (st : ContractState) (caller : Address)
    (targetTokenId : TokenId) : Except CErr ContractState := do
  let own ← ownerOf st targetTokenId
  if own ≠ caller then .error .NotTokenOwner
  else do
    let targetSlot ← slotOf st targetTokenId
    let tokensToMerge :=
      (tokensOfOwnerBySlot st caller targetSlot).filter (fun t => t != targetTokenId)
    mergeLoop targetTokenId tokensToMerge st

/-- function optimizeSlot(uint256 slot) external: collect the caller's tokens
of the slot; when more than one, merge every other token's full balance into
the first. -/
def optimizeSlot (st : ContractState) (caller : Address) (slot : Slot) :
    Except CErr ContractState :=
  let slotTokens := tokensOfOwnerBySlot st caller slot
  if slotTokens.length ≤ 1 then .ok st
  else
    match slotTokens with
    | [] => .ok st
    | targetToken :: rest => mergeLoop targetToken rest st

/-- Merge loop of benchmarkOptimizeSlot; the source duplicates the loop of
optimizeSlot verbatim, so it is transcribed as its own recursion here. -/
def benchMergeLoop (targetToken : TokenId) :
    List TokenId → ContractState → Except CErr ContractState
  | [], st => .ok st
  | t :: rest, st => do
      let tokenBalance ← balanceOfToken st t
      if 0 < tokenBalance then do
        let st1 ← _transferValue st t targetToken tokenBalance
        benchMergeLoop targetToken rest st1
      else benchMergeLoop targetToken rest st

/-- function benchmarkOptimizeSlot(uint256 slot) external returns (uint256
tokensMerged): same consolidation as optimizeSlot, returning 0 when at most
one token is in the slot and count - 1 otherwise. -/
def benchmarkOptimizeSlot (st : ContractState) (caller : Address) (slot : Slot) :
    Except CErr (ContractState × Nat) :=
  let slotTokens := tokensOfOwnerBySlot st caller slot
  if slotTokens.length ≤ 1 then .ok (st, 0)
  else
    match slotTokens with
    | [] => .ok (st, 0)
    | targetToken :: rest => do
        let st1 ← benchMergeLoop targetToken rest st
        .ok (st1, slotTokens.length - 1)

/-- function _getPackageSlot(DeviceType[] memory deviceTypes): 0 for an empty
list, else the slot of the first device type. -/
def _getPackageSlot (st : ContractState) (deviceTypes : List DeviceType) : Slot :=
  match deviceTypes with
  | [] => 0
  | d :: _ => deviceSlotOf st d

/-- function _isCompatibleDeviceType(uint256 tokenSlot, uint256 packageSlot). -/
def _isCompatibleDeviceType (tokenSlot packageSlot : Slot) : Bool :=
  tokenSlot == packageSlot

/-- Assignment to a field of devicePackages[pid]: read the current record
(Solidity default when absent), modify it, store it back. -/
def packageAssign (pkgs : List (Nat × DevicePackage)) (pid : Nat)
    (f : DevicePackage → DevicePackage) : List (Nat × DevicePackage) :=
  (pid, f ((pkgs.lookup pid).getD defaultPackage)) :: pkgs

/-- Contribution loop of createDevicePackage: for each (tokenId, amount),
require the caller owns the token and its slot is compatible with the package
slot, transfer the amount into the package token id, and accumulate the
total. -/
def packLoop (caller : Address) (packageTokenId : TokenId) (packageSlot : Slot) :
    List (TokenId × Nat) → ContractState → Nat → Except CErr (ContractState × Nat)
  | [], st, acc => .ok (st, acc)
  | (tid, amt) :: rest, st, acc => do
      let own ← ownerOf st tid
      if own ≠ caller then .error .NotTokenOwner
      else do
        let ts ← slotOf st tid
        if ¬ _isCompatibleDeviceType ts packageSlot then .error .IncompatibleDeviceType
        else do
          let st1 ← _transferValue st tid packageTokenId amt
          packLoop caller packageTokenId packageSlot rest st1 (acc + amt)

/-- function createDevicePackage(string memory packageName, DeviceType[]
memory deviceTypes, uint256[] memory tokenIds, uint256[] memory amounts)
external returns (uint256 packageId). -/
def createDevicePackage (st : ContractState) (caller : Address)
    (packageName : String) (deviceTypes : List DeviceType)
    (tokenIds : List TokenId) (amounts : List Nat) :
    Except CErr (ContractState × Nat) :=
  if deviceTypes.length ≠ tokenIds.length then .error .ArraysLengthMismatch
  else if tokenIds.length ≠ amounts.length then .error .ArraysLengthMismatch
  else
    let packageId := st.packageIdCounter
    let st0 := { st with
      packageIdCounter := st.packageIdCounter + 1,
      devicePackages := (packageId,
        { packageId := packageId, packageName := packageName,
          deviceTypes := deviceTypes, totalValue := 0, availableValue := 0,
          isActive := true }) :: st.devicePackages }
    let packageSlot := _getPackageSlot st0 deviceTypes
    let packageTokenId := st0.tokenIdCounter
    let st1 := { st0 with tokenIdCounter := st0.tokenIdCounter + 1 }
    (packLoop caller packageTokenId packageSlot (tokenIds.zip amounts) st1 0).bind
      (fun r =>
        let st2 := r.1
        let totalPackageValue := r.2
        if 0 < totalPackageValue then
          (_mint st2 caller packageTokenId packageSlot totalPackageValue).bind
            (fun st3 =>
              let pkgs4 := packageAssign st3.devicePackages packageId
                (fun p => { p with totalValue := totalPackageValue,
                                   availableValue := totalPackageValue })
              .ok ({ st3 with
                tokenToPackage := (packageTokenId, packageId) :: st3.tokenToPackage,
                devicePackages := pkgs4 }, packageId))
        else .ok (st2, packageId))

/-- function purchasePartialPackage(uint256 packageTokenId, uint256 amount,
address buyer) external.  Transcribed with the source's statement order: the
value transfer into the new token id is executed BEFORE that token is minted,
and then executed once more after the mint (the source comment next to the
mint reads "Mint first then transfer"). -/
def purchasePartialPackage (st : ContractState) (caller : Address)
    (packageTokenId : TokenId) (amount : Nat) (buyer : Address) :
    Except CErr ContractState := do
  let own ← ownerOf st packageTokenId
  if own ≠ caller then .error .NotPackageOwner
  else
    let packageId := (st.tokenToPackage.lookup packageTokenId).getD 0
    let pkg := (st.devicePackages.lookup packageId).getD defaultPackage
    if ¬ pkg.isActive then .error .PackageNotActive
    else if pkg.availableValue < amount then .error .InsufficientPackageValue
    else
      let newTokenId := st.tokenIdCounter
      let st1 := { st with tokenIdCounter := st.tokenIdCounter + 1 }
      do
        let packageSlot ← slotOf st1 packageTokenId
        let st2 ← _transferValue st1 packageTokenId newTokenId amount
        let st3 ← _mint st2 buyer newTokenId packageSlot 0
        let st4 ← _transferValue st3 packageTokenId newTokenId amount
        let pkgs5 := packageAssign st4.devicePackages packageId
          (fun p => { p with availableValue := p.availableValue - amount })
        .ok { st4 with devicePackages := pkgs5 }

/-- External operations of the contract, each carrying its caller. -/
inductive Op where
  | mint (caller toAddr : Address) (deviceType : DeviceType) (value : Nat)
  | splitValue (tokenId : TokenId) (amount : Nat) (toAddr : Address)
  | mergeValue (caller : Address) (fromTokenId toTokenId : TokenId) (amount : Nat)
  | mergeAllToTarget (caller : Address) (targetTokenId : TokenId)
  | optimizeSlot (caller : Address) (slot : Slot)
  | benchmarkOptimizeSlot (caller : Address) (slot : Slot)
  | createDevicePackage (caller : Address) (packageName : String)
      (deviceTypes : List DeviceType) (tokenIds : List TokenId) (amounts : List Nat)
  | purchasePartialPackage (caller : Address) (packageTokenId : TokenId)
      (amount : Nat) (buyer : Address)
deriving DecidableEq

/-- One external call, dropping auxiliary return values. -/
def step (st : ContractState) : Op → Except CErr ContractState
  | .mint caller toAddr d v => mint st caller toAddr d v
  | .splitValue tokenId amount toAddr => splitValue st tokenId amount toAddr
  | .mergeValue caller f t a => mergeValue st caller f t a
  | .mergeAllToTarget caller target => mergeAllToTarget st caller target
  | .optimizeSlot caller slot => optimizeSlot st caller slot
  | .benchmarkOptimizeSlot caller slot =>
      (benchmarkOptimizeSlot st caller slot).map Prod.fst
  | .createDevicePackage caller n ds ids amts =>
      (createDevicePackage st caller n ds ids amts).map Prod.fst
  | .purchasePartialPackage caller ptid amount buyer =>
      purchasePartialPackage st caller ptid amount buyer

/-- Transactional semantics of a call: on revert the pre-state is kept. -/
def run (st : ContractState) (op : Op) : ContractState :=
  match step st op with
  | .ok st1 => st1
  | .error _ => st

/-- Well-formedness maintained by the contract: every token record's id was
allocated below the counter (ids are handed out by the increasing counter),
and ids are unique. -/
def wf (st : ContractState) : Prop :=
  (∀ p ∈ st.tokens, p.1 < st.tokenIdCounter) ∧ (st.tokens.map Prod.fst).Nodup

instance (st : ContractState) : Decidable (wf st) := by
  unfold wf; infer_instance

/-! Lemmas about association-list lookup and the value update map. -/

theorem lookup_map_entry (g : TokenId → TokenData → TokenData) :
    ∀ (l : List (TokenId × TokenData)) (t : TokenId),
      (l.map (fun p => (p.1, g p.1 p.2))).lookup t = (l.lookup t).map (g t)
  | [], _ => rfl
  | (k, v) :: rest, t => by
      by_cases h : t = k
      · subst h; simp [List.lookup]
      · have hb : (t == k) = false := beq_false_of_ne h
        simp [List.lookup, hb, lookup_map_entry g rest t]

theorem lookup_updateValue (l : List (TokenId × TokenData)) (id : TokenId)
    (f : Nat → Nat) (t : TokenId) :
    (updateValue l id f).lookup t =
      (l.lookup t).map (fun d => if t = id then { d with value := f d.value } else d) := by
  unfold updateValue
  exact lookup_map_entry (fun k v => if k = id then { v with value := f v.value } else v) l t

theorem lookup_updateValue_ne (l : List (TokenId × TokenData)) (id : TokenId)
    (f : Nat → Nat) (t : TokenId) (h : t ≠ id) :
    (updateValue l id f).lookup t = l.lookup t := by
  rw [lookup_updateValue]
  cases l.lookup t <;> simp [h]

theorem lookup_updateValue_self (l : List (TokenId × TokenData)) (id : TokenId)
    (f : Nat → Nat) :
    (updateValue l id f).lookup id =
      (l.lookup id).map (fun d => { d with value := f d.value }) := by
  rw [lookup_updateValue]
  cases l.lookup id <;> simp

theorem keys_updateValue (l : List (TokenId × TokenData)) (id : TokenId)
    (f : Nat → Nat) : (updateValue l id f).map Prod.fst = l.map Prod.fst := by
  unfold updateValue
  induction l with
  | nil => rfl
  | cons p rest ih => simp [ih]

theorem mem_of_lookup :
    ∀ (l : List (TokenId × TokenData)) (t : TokenId) (d : TokenData),
      l.lookup t = some d → (t, d) ∈ l
  | [], _, _, h => by simp [List.lookup] at h
  | (k, v) :: rest, t, d, h => by
      by_cases he : t = k
      · subst he
        simp [List.lookup] at h
        simp [h]
      · have hb : (t == k) = false := beq_false_of_ne he
        simp [List.lookup, hb] at h
        exact List.mem_cons_of_mem _ (mem_of_lookup rest t d h)

theorem lookup_eq_none_of_forall :
    ∀ (l : List (TokenId × TokenData)) (t : TokenId),
      (∀ p ∈ l, p.1 ≠ t) → l.lookup t = none
  | [], _, _ => rfl
  | (k, v) :: rest, t, h => by
      have hk : k ≠ t := h (k, v) (List.mem_cons_self _ _)
      have hb : (t == k) = false := beq_false_of_ne (fun he => hk he.symm)
      simp [List.lookup, hb]
      exact fun a b hab hta => h (a, b) (List.mem_cons_of_mem _ hab) hta.symm

theorem lookup_append_of_some (l₁ l₂ : List (TokenId × TokenData)) (t : TokenId)
    (d : TokenData) (h : l₁.lookup t = some d) : (l₁ ++ l₂).lookup t = some d := by
  induction l₁ with
  | nil => simp [List.lookup] at h
  | cons p rest ih =>
      obtain ⟨k, v⟩ := p
      by_cases he : t = k
      · subst he
        simp [List.lookup] at h ⊢
        exact h
      · have hb : (t == k) = false := beq_false_of_ne he
        simp [List.lookup, hb] at h ⊢
        exact ih h

theorem lookup_append_of_none (l₁ l₂ : List (TokenId × TokenData)) (t : TokenId)
    (h : l₁.lookup t = none) : (l₁ ++ l₂).lookup t = l₂.lookup t := by
  induction l₁ with
  | nil => rfl
  | cons p rest ih =>
      obtain ⟨k, v⟩ := p
      by_cases he : t = k
      · subst he
        simp [List.lookup] at h
      · have hb : (t == k) = false := beq_false_of_ne he
        simp [List.lookup, hb] at h ⊢
        exact ih (lookup_eq_none_of_forall rest t
          (fun p hp hat => h p.1 p.2 (by simpa using hp) hat.symm))

theorem ok_bind {α β : Type} (a : α) (f : α → Except CErr β) :
    (Except.ok a : Except CErr α) >>= f = f a := rfl

theorem lookup_eq_none_of_keys_lt (l : List (TokenId × TokenData)) (n : Nat)
    (h : ∀ p ∈ l, p.1 < n) : l.lookup n = none :=
  lookup_eq_none_of_forall l n (fun p hp => Nat.ne_of_lt (h p hp))

theorem keys_lt_updateValue (l : List (TokenId × TokenData)) (id : TokenId)
    (f : Nat → Nat) (n : Nat) (h : ∀ p ∈ l, p.1 < n) :
    ∀ p ∈ updateValue l id f, p.1 < n := by
  intro p hp
  have hk : p.1 ∈ (updateValue l id f).map Prod.fst := List.mem_map_of_mem Prod.fst hp
  rw [keys_updateValue] at hk
  obtain ⟨q, hq, hqe⟩ := List.mem_map.mp hk
  exact hqe ▸ h q hq

/-- C1: for every token T with value V and every amount A with 0 < A ≤ V,
splitValue(T, A, recipient) succeeds, and afterwards the source token's
balance plus the newly minted token's balance equals V, the new token's
balance equals A, and the new token's slot equals slot(T).  The new token's
id is the pre-call value of the token id counter. -/
theorem splitValue_conservation (st : ContractState) (tokenId : TokenId)
    (amount : Nat) (toAddr : Address) (d : TokenData)
    (hwf : wf st) (hT : lookupToken st tokenId = some d)
    (hpos : 0 < amount) (hle : amount ≤ d.value) :
    ∃ st1, splitValue st tokenId amount toAddr = .ok st1 ∧
      tokenValue st1 tokenId + tokenValue st1 st.tokenIdCounter = d.value ∧
      tokenValue st1 st.tokenIdCounter = amount ∧
      tokenSlot st1 st.tokenIdCounter = tokenSlot st tokenId := by
  have hnl : ¬ d.value < amount := not_lt.mpr hle
  have hne : tokenId ≠ st.tokenIdCounter :=
    Nat.ne_of_lt (hwf.1 (tokenId, d) (mem_of_lookup st.tokens tokenId d hT))
  have hbal : balanceOfToken st tokenId = .ok d.value := by
    simp [balanceOfToken, hT]
  have hburn : _burnValue st tokenId amount =
      .ok { st with tokens := updateValue st.tokens tokenId (fun v => v - amount) } := by
    simp [_burnValue, hT, hnl]
  have hlookb :
      (updateValue st.tokens tokenId (fun v => v - amount)).lookup tokenId =
        some { d with value := d.value - amount } := by
    rw [lookup_updateValue_self]
    simp [lookupToken] at hT
    simp [hT]
  have hfreshb :
      (updateValue st.tokens tokenId (fun v => v - amount)).lookup st.tokenIdCounter =
        none :=
    lookup_eq_none_of_keys_lt _ _
      (keys_lt_updateValue st.tokens tokenId (fun v => v - amount) st.tokenIdCounter hwf.1)
  refine ⟨{ st with
      tokens := updateValue st.tokens tokenId (fun v => v - amount) ++
        [(st.tokenIdCounter, ⟨toAddr, d.slot, amount⟩)],
      tokenIdCounter := st.tokenIdCounter + 1 }, ?_, ?_, ?_, ?_⟩
  · unfold splitValue
    rw [hbal, ok_bind, if_neg hnl, hburn, ok_bind]
    show (slotOf _ tokenId >>= _) = _
    have hslot : slotOf { st with
        tokens := updateValue st.tokens tokenId (fun v => v - amount) } tokenId =
          .ok d.slot := by
      simp [slotOf, lookupToken, hlookb]
    rw [hslot, ok_bind]
    show _mint _ toAddr st.tokenIdCounter d.slot amount = _
    unfold _mint
    simp only [lookupToken, hfreshb, Option.isSome_none, Bool.false_eq_true, if_false]
  · have h1 : tokenValue { st with
        tokens := updateValue st.tokens tokenId (fun v => v - amount) ++
          [(st.tokenIdCounter, ⟨toAddr, d.slot, amount⟩)],
        tokenIdCounter := st.tokenIdCounter + 1 } tokenId = d.value - amount := by
      simp [tokenValue, lookupToken,
        lookup_append_of_some _ _ _ _ hlookb]
    have h2 : tokenValue { st with
        tokens := updateValue st.tokens tokenId (fun v => v - amount) ++
          [(st.tokenIdCounter, ⟨toAddr, d.slot, amount⟩)],
        tokenIdCounter := st.tokenIdCounter + 1 } st.tokenIdCounter = amount := by
      simp [tokenValue, lookupToken, lookup_append_of_none _ _ _ hfreshb, List.lookup]
    rw [h1, h2]
    exact Nat.sub_add_cancel hle
  · simp [tokenValue, lookupToken, lookup_append_of_none _ _ _ hfreshb, List.lookup]
  · simp [lookupToken] at hT
    simp [tokenSlot, lookupToken, lookup_append_of_none _ _ _ hfreshb, List.lookup, hT]

/-- Concrete ledger used by the witnesses: holder 5 owns tokens 1 and 2 in
slot 0, holder 6 owns token 3 in slot 1; the contract owner is address 7. -/
def sampleState : ContractState :=
  { tokens := [(1, ⟨5, 0, 100⟩), (2, ⟨5, 0, 40⟩), (3, ⟨6, 1, 25⟩)],
    tokenIdCounter := 4,
    deviceToSlot := [],
    contractOwner := 7,
    devicePackages := [],
    tokenToPackage := [],
    packageIdCounter := 1 }

/-- C1 witness: splitting 30 out of token 1 (value 100) of `sampleState`. -/
theorem splitValue_conservation_witness :
    ∃ st1, splitValue sampleState 1 30 9 = .ok st1 ∧
      tokenValue st1 1 + tokenValue st1 sampleState.tokenIdCounter = 100 ∧
      tokenValue st1 sampleState.tokenIdCounter = 30 ∧
      tokenSlot st1 sampleState.tokenIdCounter = tokenSlot sampleState 1 :=
  splitValue_conservation sampleState 1 30 9 ⟨5, 0, 100⟩
    (by decide) (by decide) (by decide) (by decide)

/-- C2: for every pair of distinct same-slot tokens F and D and every amount
A ≤ balance(F), mergeValue(F, D, A) called by the owner of F succeeds, the
sum balance(F) + balance(D) is unchanged, and balance(F) decreases by exactly
A. -/
theorem mergeValue_conservation (st : ContractState) (caller : Address)
    (F D : TokenId) (amount : Nat) (fd dd : TokenData)
    (hF : lookupToken st F = some fd) (hD : lookupToken st D = some dd)
    (hFD : F ≠ D) (hown : fd.owner = caller) (hslot : fd.slot = dd.slot)
    (hle : amount ≤ fd.value) :
    ∃ st1, mergeValue st caller F D amount = .ok st1 ∧
      tokenValue st1 F + tokenValue st1 D = tokenValue st F + tokenValue st D ∧
      tokenValue st1 F + amount = tokenValue st F := by
  have hnl : ¬ fd.value < amount := not_lt.mpr hle
  refine ⟨{ st with tokens :=
      (updateValue (updateValue st.tokens F (fun v => v - amount)) D
        (fun v => v + amount)) }, ?_, ?_, ?_⟩
  · unfold mergeValue
    rw [show ownerOf st F = .ok fd.owner by simp [ownerOf, hF], ok_bind,
        if_neg (not_ne_iff.mpr hown),
        show slotOf st F = .ok fd.slot by simp [slotOf, hF], ok_bind,
        show slotOf st D = .ok dd.slot by simp [slotOf, hD], ok_bind,
        if_neg (not_ne_iff.mpr hslot)]
    unfold _transferValue
    rw [hF, hD]
    simp [hnl, hslot]
  · have h1 : (updateValue (updateValue st.tokens F (fun v => v - amount)) D
        (fun v => v + amount)).lookup F = some { fd with value := fd.value - amount } := by
      rw [lookup_updateValue_ne _ _ _ _ hFD, lookup_updateValue_self]
      simp [lookupToken] at hF
      simp [hF]
    have h2 : (updateValue (updateValue st.tokens F (fun v => v - amount)) D
        (fun v => v + amount)).lookup D = some { dd with value := dd.value + amount } := by
      rw [lookup_updateValue_self, lookup_updateValue_ne _ _ _ _ (Ne.symm hFD)]
      simp [lookupToken] at hD
      simp [hD]
    simp [tokenValue, lookupToken, h1, h2]
    simp [lookupToken] at hF hD
    simp [hF, hD]
    omega
  · have h1 : (updateValue (updateValue st.tokens F (fun v => v - amount)) D
        (fun v => v + amount)).lookup F = some { fd with value := fd.value - amount } := by
      rw [lookup_updateValue_ne _ _ _ _ hFD, lookup_updateValue_self]
      simp [lookupToken] at hF
      simp [hF]
    simp [tokenValue, lookupToken, h1]
    simp [lookupToken] at hF
    simp [hF]
    omega

/-- C2 witness: owner 5 merges 10 from token 2 into token 1 of
`sampleState`. -/
theorem mergeValue_conservation_witness :
    ∃ st1, mergeValue sampleState 5 2 1 10 = .ok st1 ∧
      tokenValue st1 2 + tokenValue st1 1 =
        tokenValue sampleState 2 + tokenValue sampleState 1 ∧
      tokenValue st1 2 + 10 = tokenValue sampleState 2 :=
  mergeValue_conservation sampleState 5 2 1 10 ⟨5, 0, 40⟩ ⟨5, 0, 100⟩
    (by decide) (by decide) (by decide) (by decide) (by decide) (by decide)

/-- C3: a mergeValue call by a caller who does not own the source token, or
on two tokens of different slots, reverts, and under the transactional
semantics the state (hence every balance and slot) is unchanged. -/
theorem mergeValue_reverts_on_bad_owner_or_slot (st : ContractState)
    (caller : Address) (F D : TokenId) (amount : Nat) (fd dd : TokenData)
    (hF : lookupToken st F = some fd) (hD : lookupToken st D = some dd)
    (hbad : fd.owner ≠ caller ∨ fd.slot ≠ dd.slot) :
    (∃ e, mergeValue st caller F D amount = .error e) ∧
      run st (Op.mergeValue caller F D amount) = st := by
  have key : ∃ e, mergeValue st caller F D amount = .error e := by
    unfold mergeValue
    rw [show ownerOf st F = .ok fd.owner by simp [ownerOf, hF], ok_bind]
    by_cases hc : fd.owner = caller
    · have hsl : fd.slot ≠ dd.slot := hbad.resolve_left (not_not_intro hc)
      rw [if_neg (not_ne_iff.mpr hc),
          show slotOf st F = .ok fd.slot by simp [slotOf, hF], ok_bind,
          show slotOf st D = .ok dd.slot by simp [slotOf, hD], ok_bind,
          if_pos hsl]
      exact ⟨_, rfl⟩
    · rw [if_pos hc]
      exact ⟨_, rfl⟩
  refine ⟨key, ?_⟩
  obtain ⟨e, he⟩ := key
  simp [run, step, he]

/-- C3 witness: address 6 does not own token 1, so its merge attempt of
token 1 into token 2 reverts and the state is kept. -/
theorem mergeValue_reverts_witness :
    (∃ e, mergeValue sampleState 6 1 2 5 = .error e) ∧
      run sampleState (Op.mergeValue 6 1 2 5) = sampleState :=
  mergeValue_reverts_on_bad_owner_or_slot sampleState 6 1 2 5 ⟨5, 0, 100⟩ ⟨5, 0, 40⟩
    (by decide) (by decide) (Or.inl (by decide))

/-- C6: before initializeDeviceGroups has ever been called the deviceToSlot
mapping is empty (all reads default to 0), so an owner-called mint succeeds
for every device type, recipient and value, and the new token's slot is 0. -/
theorem mint_before_init_gives_slot_zero (st : ContractState)
    (caller toAddr : Address) (d : DeviceType) (v : Nat)
    (hwf : wf st) (hinit : st.deviceToSlot = [])
    (hcaller : caller = st.contractOwner) :
    ∃ st1, mint st caller toAddr d v = .ok st1 ∧
      tokenSlot st1 st.tokenIdCounter = some 0 := by
  have hfresh : st.tokens.lookup st.tokenIdCounter = none :=
    lookup_eq_none_of_keys_lt _ _ hwf.1
  refine ⟨{ st with
      tokens := st.tokens ++ [(st.tokenIdCounter, ⟨toAddr, 0, v⟩)],
      tokenIdCounter := st.tokenIdCounter + 1 }, ?_, ?_⟩
  · unfold mint
    rw [if_neg (not_ne_iff.mpr hcaller)]
    unfold _mint deviceSlotOf
    simp [lookupToken, hinit, hfresh, List.lookup]
  · simp [tokenSlot, lookupToken, lookup_append_of_none _ _ _ hfresh, List.lookup]

/-- C6 witness: the contract owner 7 of `sampleState` (whose deviceToSlot
table was never initialized) mints a Camera token; it lands in slot 0. -/
theorem mint_before_init_witness :
    ∃ st1, mint sampleState 7 9 DeviceType.Camera 50 = .ok st1 ∧
      tokenSlot st1 sampleState.tokenIdCounter = some 0 :=
  mint_before_init_gives_slot_zero sampleState 7 9 DeviceType.Camera 50
    (by decide) (by decide) (by decide)

/-- C9: purchasePartialPackage on a token id that was never registered as a
package token reverts with the package-inactive error even when called by the
token's owner, because tokenToPackage defaults to package id 0, which was
never created and therefore reads as an inactive default record; the state is
kept. -/
theorem purchase_on_unpackaged_token_reverts (st : ContractState)
    (caller : Address) (t : TokenId) (amount : Nat) (buyer : Address)
    (d : TokenData)
    (ht : lookupToken st t = some d) (hown : d.owner = caller)
    (hnp : st.tokenToPackage.lookup t = none)
    (hp0 : st.devicePackages.lookup 0 = none) :
    purchasePartialPackage st caller t amount buyer = .error .PackageNotActive ∧
      run st (Op.purchasePartialPackage caller t amount buyer) = st := by
  have key : purchasePartialPackage st caller t amount buyer =
      .error .PackageNotActive := by
    unfold purchasePartialPackage
    rw [show ownerOf st t = .ok d.owner by simp [ownerOf, ht], ok_bind,
        if_neg (not_ne_iff.mpr hown)]
    simp [hnp, hp0, defaultPackage]
  exact ⟨key, by simp [run, step, key]⟩

/-- C9 witness: token 3 of `sampleState` belongs to no package, so its owner
6 cannot sell from it as a package. -/
theorem purchase_on_unpackaged_token_witness :
    purchasePartialPackage sampleState 6 3 5 9 = .error .PackageNotActive ∧
      run sampleState (Op.purchasePartialPackage 6 3 5 9) = sampleState :=
  purchase_on_unpackaged_token_reverts sampleState 6 3 5 9 ⟨6, 1, 25⟩
    (by decide) (by decide) (by decide) (by decide)

/-- C10: createDevicePackage with all three input lists empty succeeds,
returns the fresh package id (the current package counter, which is then
incremented), stores an active package record with total and available value
0, mints no token (the token table is unchanged, though a token id is still
consumed by the counter), and adds no tokenToPackage entry. -/
theorem createDevicePackage_empty_lists (st : ContractState) (caller : Address)
    (pname : String) :
    ∃ st1, createDevicePackage st caller pname [] [] [] =
        .ok (st1, st.packageIdCounter) ∧
      st1.devicePackages.lookup st.packageIdCounter =
        some { packageId := st.packageIdCounter, packageName := pname,
               deviceTypes := [], totalValue := 0, availableValue := 0,
               isActive := true } ∧
      st1.tokens = st.tokens ∧
      st1.tokenToPackage = st.tokenToPackage ∧
      st1.packageIdCounter = st.packageIdCounter + 1 ∧
      st1.tokenIdCounter = st.tokenIdCounter + 1 := by
  refine ⟨{ st with
      packageIdCounter := st.packageIdCounter + 1,
      tokenIdCounter := st.tokenIdCounter + 1,
      devicePackages := (st.packageIdCounter,
        { packageId := st.packageIdCounter, packageName := pname,
          deviceTypes := [], totalValue := 0, availableValue := 0,
          isActive := true }) :: st.devicePackages }, ?_, ?_, ?_, ?_, ?_, ?_⟩
  · unfold createDevicePackage
    simp [packLoop, Except.bind, List.lookup]
  · simp [List.lookup]
  · rfl
  · rfl
  · rfl
  · rfl

/-- Concrete ledger for the package-sale scenario of the spec: token 1 is a
package token of value 100 owned by address 5, registered to the active
package 1 with totalValue 100 and availableValue 100. -/
def packagedState : ContractState :=
  { tokens := [(1, ⟨5, 0, 100⟩)],
    tokenIdCounter := 2,
    deviceToSlot := [],
    contractOwner := 7,
    devicePackages := [(1,
      { packageId := 1, packageName := "bundle",
        deviceTypes := [DeviceType.TemperatureSensor, DeviceType.HumiditySensor],
        totalValue := 100, availableValue := 100, isActive := true })],
    tokenToPackage := [(1, 1)],
    packageIdCounter := 2 }

/-- C5: on the spec's partial-purchase scenario (package of available value
100, owner sells 40 to buyer 9) the code reverts: it executes
_transferValue(packageTokenId, newTokenId, amount) BEFORE minting newTokenId
(its own comment says "Mint first then transfer"), and a value transfer into
a token id with no record fails, so no sale ever happens. -/
theorem purchasePartialPackage_spec_scenario_reverts :
    purchasePartialPackage packagedState 5 1 40 9 = .error .InvalidTokenId := by
  rfl

/-! Infrastructure for the slot-immutability and idempotence proofs. -/

theorem bind_ok_iff {α β : Type} (x : Except CErr α) (f : α → Except CErr β)
    (b : β) : (x >>= f) = .ok b ↔ ∃ a, x = .ok a ∧ f a = .ok b := by
  cases x <;> simp [Bind.bind, Except.bind]

theorem map_ok_iff {α β : Type} (x : Except CErr α) (g : α → β) (b : β) :
    x.map g = .ok b ↔ ∃ a, x = .ok a ∧ g a = b := by
  cases x <;> simp [Except.map]

/-- Every token record of the first state persists in the second with the
same owner and slot (only its value may have changed). -/
def preservesTokens (st st1 : ContractState) : Prop :=
  ∀ t d, lookupToken st t = some d →
    ∃ d1, lookupToken st1 t = some d1 ∧ d1.owner = d.owner ∧ d1.slot = d.slot

theorem preservesTokens_refl (st : ContractState) : preservesTokens st st :=
  fun _ d h => ⟨d, h, rfl, rfl⟩

theorem preservesTokens_trans {st st1 st2 : ContractState}
    (h1 : preservesTokens st st1) (h2 : preservesTokens st1 st2) :
    preservesTokens st st2 := by
  intro t d h
  obtain ⟨d1, hl1, ho1, hs1⟩ := h1 t d h
  obtain ⟨d2, hl2, ho2, hs2⟩ := h2 t d1 hl1
  exact ⟨d2, hl2, ho2.trans ho1, hs2.trans hs1⟩

theorem preservesTokens_of_tokens_eq {st st1 : ContractState}
    (h : st1.tokens = st.tokens) : preservesTokens st st1 := by
  intro t d hl
  refine ⟨d, ?_, rfl, rfl⟩
  simpa [lookupToken, h] using hl

theorem preservesTokens_updateValue {st st1 : ContractState} (id : TokenId)
    (f : Nat → Nat) (h : st1.tokens = updateValue st.tokens id f) :
    preservesTokens st st1 := by
  intro t d hl
  simp only [lookupToken] at hl
  refine ⟨if t = id then { d with value := f d.value } else d, ?_, ?_, ?_⟩
  · simp [lookupToken, h, lookup_updateValue, hl]
  · split <;> rfl
  · split <;> rfl

theorem preservesTokens_append {st st1 : ContractState}
    (l : List (TokenId × TokenData)) (h : st1.tokens = st.tokens ++ l) :
    preservesTokens st st1 := by
  intro t d hl
  simp only [lookupToken] at hl
  refine ⟨d, ?_, rfl, rfl⟩
  simp only [lookupToken, h]
  exact lookup_append_of_some _ _ _ _ hl

theorem mint_preservesTokens {st st1 : ContractState} {toAddr : Address}
    {tid : TokenId} {slot : Slot} {v : Nat}
    (h : _mint st toAddr tid slot v = .ok st1) : preservesTokens st st1 := by
  unfold _mint at h
  split at h
  · simp at h
  · simp only [Except.ok.injEq] at h
    exact preservesTokens_append _ (by rw [← h])

theorem burnValue_preservesTokens {st st1 : ContractState} {tid : TokenId}
    {amount : Nat} (h : _burnValue st tid amount = .ok st1) :
    preservesTokens st st1 := by
  unfold _burnValue at h
  split at h
  · split at h
    · simp at h
    · simp only [Except.ok.injEq] at h
      exact preservesTokens_updateValue tid _ (by rw [← h])
  · simp at h

theorem transferValue_preservesTokens {st st1 : ContractState}
    {a b : TokenId} {amt : Nat} (h : _transferValue st a b amt = .ok st1) :
    preservesTokens st st1 := by
  unfold _transferValue at h
  split at h
  case _ fd td hfd htd =>
    split at h
    · simp at h
    · split at h
      · simp at h
      · simp only [Except.ok.injEq] at h
        refine @preservesTokens_trans st
          { st with tokens := updateValue st.tokens a (fun x => x - amt) } _ ?_ ?_
        · exact preservesTokens_updateValue a (fun x => x - amt) rfl
        · exact preservesTokens_updateValue b (fun x => x + amt) (by rw [← h])
  case _ => simp at h

theorem bindE_ok_iff {α β : Type} (x : Except CErr α) (f : α → Except CErr β)
    (b : β) : x.bind f = .ok b ↔ ∃ a, x = .ok a ∧ f a = .ok b := by
  cases x <;> simp [Except.bind]

theorem mergeLoop_preservesTokens (target : TokenId) :
    ∀ (l : List TokenId) (st st1 : ContractState),
      mergeLoop target l st = .ok st1 → preservesTokens st st1
  | [], st, st1, h => by
      simp only [mergeLoop, Except.ok.injEq] at h
      exact h ▸ preservesTokens_refl st
  | t :: rest, st, st1, h => by
      simp only [mergeLoop] at h
      rw [bind_ok_iff] at h
      obtain ⟨bal, hbal, h2⟩ := h
      split at h2
      · rw [bind_ok_iff] at h2
        obtain ⟨st2, htr, hloop⟩ := h2
        exact preservesTokens_trans (transferValue_preservesTokens htr)
          (mergeLoop_preservesTokens target rest st2 st1 hloop)
      · exact mergeLoop_preservesTokens target rest st st1 h2

theorem benchMergeLoop_eq_mergeLoop (target : TokenId) :
    ∀ (l : List TokenId) (st : ContractState),
      benchMergeLoop target l st = mergeLoop target l st
  | [], _ => rfl
  | t :: rest, st => by
      simp only [benchMergeLoop, mergeLoop]
      congr 1
      funext bal
      split
      · congr 1
        funext st2
        exact benchMergeLoop_eq_mergeLoop target rest st2
      · exact benchMergeLoop_eq_mergeLoop target rest st

theorem packLoop_preservesTokens (caller : Address) (ptid : TokenId) (ps : Slot) :
    ∀ (l : List (TokenId × Nat)) (st : ContractState) (acc : Nat)
      (r : ContractState × Nat),
      packLoop caller ptid ps l st acc = .ok r → preservesTokens st r.1
  | [], st, acc, r, h => by
      simp only [packLoop, Except.ok.injEq] at h
      exact h ▸ preservesTokens_refl st
  | (tid, amt) :: rest, st, acc, r, h => by
      simp only [packLoop] at h
      rw [bind_ok_iff] at h
      obtain ⟨own, hown, h2⟩ := h
      split at h2
      · simp at h2
      · rw [bind_ok_iff] at h2
        obtain ⟨ts, hts, h3⟩ := h2
        split at h3
        · simp at h3
        · rw [bind_ok_iff] at h3
          obtain ⟨st2, htr, hloop⟩ := h3
          exact preservesTokens_trans (transferValue_preservesTokens htr)
            (packLoop_preservesTokens caller ptid ps rest st2 _ r hloop)

theorem mintOp_preservesTokens {st st1 : ContractState} {caller toAddr : Address}
    {d : DeviceType} {v : Nat} (h : mint st caller toAddr d v = .ok st1) :
    preservesTokens st st1 := by
  unfold mint at h
  split at h
  · simp at h
  · exact preservesTokens_trans
      (@preservesTokens_of_tokens_eq st
        { st with tokenIdCounter := st.tokenIdCounter + 1 } rfl)
      (mint_preservesTokens h)

theorem splitValueOp_preservesTokens {st st1 : ContractState} {tid : TokenId}
    {amount : Nat} {toAddr : Address}
    (h : splitValue st tid amount toAddr = .ok st1) : preservesTokens st st1 := by
  unfold splitValue at h
  rw [bind_ok_iff] at h
  obtain ⟨bal, hbal, h2⟩ := h
  split at h2
  · simp at h2
  · rw [bind_ok_iff] at h2
    obtain ⟨stb, hburn, h3⟩ := h2
    rw [bind_ok_iff] at h3
    obtain ⟨slot, hslot, h4⟩ := h3
    exact preservesTokens_trans (burnValue_preservesTokens hburn)
      (preservesTokens_trans
        (@preservesTokens_of_tokens_eq stb
          { stb with tokenIdCounter := stb.tokenIdCounter + 1 } rfl)
        (mint_preservesTokens h4))

theorem mergeValueOp_preservesTokens {st st1 : ContractState} {caller : Address}
    {f t : TokenId} {a : Nat} (h : mergeValue st caller f t a = .ok st1) :
    preservesTokens st st1 := by
  unfold mergeValue at h
  rw [bind_ok_iff] at h
  obtain ⟨own, hown, h2⟩ := h
  split at h2
  · simp at h2
  · rw [bind_ok_iff] at h2
    obtain ⟨sf, hsf, h3⟩ := h2
    rw [bind_ok_iff] at h3
    obtain ⟨sd, hsd, h4⟩ := h3
    split at h4
    · simp at h4
    · exact transferValue_preservesTokens h4

theorem mergeAllToTargetOp_preservesTokens {st st1 : ContractState}
    {caller : Address} {target : TokenId}
    (h : mergeAllToTarget st caller target = .ok st1) : preservesTokens st st1 := by
  unfold mergeAllToTarget at h
  rw [bind_ok_iff] at h
  obtain ⟨own, hown, h2⟩ := h
  split at h2
  · simp at h2
  · rw [bind_ok_iff] at h2
    obtain ⟨ts, hts, h3⟩ := h2
    exact mergeLoop_preservesTokens _ _ _ _ h3

theorem optimizeSlotOp_preservesTokens {st st1 : ContractState}
    {caller : Address} {slot : Slot}
    (h : optimizeSlot st caller slot = .ok st1) : preservesTokens st st1 := by
  simp only [optimizeSlot] at h
  split at h
  · simp only [Except.ok.injEq] at h
    exact h ▸ preservesTokens_refl st
  · split at h
    · simp only [Except.ok.injEq] at h
      exact h ▸ preservesTokens_refl st
    · exact mergeLoop_preservesTokens _ _ _ _ h

theorem benchmarkOptimizeSlotOp_preservesTokens {st st2 : ContractState}
    {caller : Address} {slot : Slot} {n : Nat}
    (h : benchmarkOptimizeSlot st caller slot = .ok (st2, n)) :
    preservesTokens st st2 := by
  simp only [benchmarkOptimizeSlot] at h
  split at h
  · simp only [Except.ok.injEq, Prod.mk.injEq] at h
    exact h.1 ▸ preservesTokens_refl st
  · split at h
    · simp only [Except.ok.injEq, Prod.mk.injEq] at h
      exact h.1 ▸ preservesTokens_refl st
    · rw [bind_ok_iff] at h
      obtain ⟨st3, hloop, hok⟩ := h
      simp only [Except.ok.injEq, Prod.mk.injEq] at hok
      rw [benchMergeLoop_eq_mergeLoop] at hloop
      exact hok.1 ▸ mergeLoop_preservesTokens _ _ _ _ hloop

theorem createDevicePackageOp_preservesTokens {st st2 : ContractState}
    {caller : Address} {pname : String} {ds : List DeviceType}
    {ids : List TokenId} {amts : List Nat} {pid : Nat}
    (h : createDevicePackage st caller pname ds ids amts = .ok (st2, pid)) :
    preservesTokens st st2 := by
  unfold createDevicePackage at h
  split at h
  · simp at h
  · split at h
    · simp at h
    · rw [bindE_ok_iff] at h
      obtain ⟨r, hloop, h2⟩ := h
      have hpre : preservesTokens st r.1 :=
        preservesTokens_trans
          (preservesTokens_of_tokens_eq (by rfl))
          (packLoop_preservesTokens _ _ _ _ _ _ _ hloop)
      dsimp only at h2
      split at h2
      · rw [bindE_ok_iff] at h2
        obtain ⟨st3, hmint, h3⟩ := h2
        simp only [Except.ok.injEq, Prod.mk.injEq] at h3
        refine preservesTokens_trans hpre
          (preservesTokens_trans (mint_preservesTokens hmint) ?_)
        exact preservesTokens_of_tokens_eq (by rw [← h3.1])
      · simp only [Except.ok.injEq, Prod.mk.injEq] at h2
        exact h2.1 ▸ hpre

theorem purchasePartialPackageOp_preservesTokens {st st1 : ContractState}
    {caller : Address} {ptid : TokenId} {amount : Nat} {buyer : Address}
    (h : purchasePartialPackage st caller ptid amount buyer = .ok st1) :
    preservesTokens st st1 := by
  unfold purchasePartialPackage at h
  rw [bind_ok_iff] at h
  obtain ⟨own, hown, h2⟩ := h
  split at h2
  · simp at h2
  · dsimp only at h2
    split at h2
    · simp at h2
    · split at h2
      · simp at h2
      · rw [bind_ok_iff] at h2
        obtain ⟨ps, hps, h3⟩ := h2
        rw [bind_ok_iff] at h3
        obtain ⟨st2, htr1, h4⟩ := h3
        rw [bind_ok_iff] at h4
        obtain ⟨st3, hmint, h5⟩ := h4
        rw [bind_ok_iff] at h5
        obtain ⟨st4, htr2, h6⟩ := h5
        simp only [Except.ok.injEq] at h6
        refine preservesTokens_trans
          (@preservesTokens_of_tokens_eq st
            { st with tokenIdCounter := st.tokenIdCounter + 1 } rfl) ?_
        refine preservesTokens_trans (transferValue_preservesTokens htr1) ?_
        refine preservesTokens_trans (mint_preservesTokens hmint) ?_
        refine preservesTokens_trans (transferValue_preservesTokens htr2) ?_
        exact preservesTokens_of_tokens_eq (by rw [← h6])

theorem step_preservesTokens (st st1 : ContractState) (op : Op)
    (h : step st op = .ok st1) : preservesTokens st st1 := by
  cases op with
  | mint caller toAddr d v => exact mintOp_preservesTokens h
  | splitValue tid amount toAddr => exact splitValueOp_preservesTokens h
  | mergeValue caller f t a => exact mergeValueOp_preservesTokens h
  | mergeAllToTarget caller target => exact mergeAllToTargetOp_preservesTokens h
  | optimizeSlot caller slot => exact optimizeSlotOp_preservesTokens h
  | benchmarkOptimizeSlot caller slot =>
      simp only [step] at h
      rw [map_ok_iff] at h
      obtain ⟨⟨st2, n⟩, hb, he⟩ := h
      exact he ▸ benchmarkOptimizeSlotOp_preservesTokens hb
  | createDevicePackage caller pname ds ids amts =>
      simp only [step] at h
      rw [map_ok_iff] at h
      obtain ⟨⟨st2, pid⟩, hb, he⟩ := h
      exact he ▸ createDevicePackageOp_preservesTokens hb
  | purchasePartialPackage caller ptid amount buyer =>
      exact purchasePartialPackageOp_preservesTokens h

/-- C4: no operation of the contract (mint, splitValue, mergeValue,
mergeAllToTarget, optimizeSlot, benchmarkOptimizeSlot, createDevicePackage,
purchasePartialPackage) ever changes the slot of an existing token id,
whether the call commits or reverts: a token's slot is fixed at creation. -/
theorem slot_immutable (st : ContractState) (op : Op) (t : TokenId)
    (d : TokenData) (ht : lookupToken st t = some d) :
    ∃ d1, lookupToken (run st op) t = some d1 ∧ d1.slot = d.slot := by
  unfold run
  cases hs : step st op with
  | ok st1 =>
      obtain ⟨d1, h1, _, h2⟩ := step_preservesTokens st st1 op hs t d ht
      exact ⟨d1, h1, h2⟩
  | error e => exact ⟨d, ht, rfl⟩

/-- C4 witness: splitting 30 out of token 1 of `sampleState` keeps token 1
in slot 0. -/
theorem slot_immutable_witness :
    ∃ d1, lookupToken (run sampleState (Op.splitValue 1 30 9)) 1 = some d1 ∧
      d1.slot = 0 :=
  slot_immutable sampleState (Op.splitValue 1 30 9) 1 ⟨5, 0, 100⟩ (by decide)

/-- C7: benchmarkOptimizeSlot performs exactly the state transition of
optimizeSlot (identical resulting ledger state, identical revert behaviour),
and additionally returns the count of tokens merged: one less than the number
of the caller's tokens in the slot, hence 0 when the caller holds at most one
token there. -/
theorem benchmarkOptimizeSlot_equiv_optimizeSlot (st : ContractState)
    (caller : Address) (slot : Slot) :
    (benchmarkOptimizeSlot st caller slot).map Prod.fst =
      optimizeSlot st caller slot ∧
    ∀ st1 n, benchmarkOptimizeSlot st caller slot = .ok (st1, n) →
      n = (tokensOfOwnerBySlot st caller slot).length - 1 ∧
      ((tokensOfOwnerBySlot st caller slot).length ≤ 1 → n = 0) := by
  constructor
  · simp only [benchmarkOptimizeSlot, optimizeSlot]
    by_cases hlen : (tokensOfOwnerBySlot st caller slot).length ≤ 1
    · rw [if_pos hlen, if_pos hlen]
      rfl
    · rw [if_neg hlen, if_neg hlen]
      cases hts : tokensOfOwnerBySlot st caller slot with
      | nil => rfl
      | cons target rest =>
          dsimp only
          rw [benchMergeLoop_eq_mergeLoop]
          cases hml : mergeLoop target rest st <;> rfl
  · intro st1 n h
    simp only [benchmarkOptimizeSlot] at h
    by_cases hlen : (tokensOfOwnerBySlot st caller slot).length ≤ 1
    · rw [if_pos hlen] at h
      simp only [Except.ok.injEq, Prod.mk.injEq] at h
      exact ⟨by omega, fun _ => h.2.symm⟩
    · rw [if_neg hlen] at h
      cases hl : tokensOfOwnerBySlot st caller slot with
      | nil => rw [hl] at hlen; simp at hlen
      | cons target rest =>
          rw [hl] at h
          rw [bind_ok_iff] at h
          obtain ⟨st3, hloop, hok⟩ := h
          simp only [Except.ok.injEq, Prod.mk.injEq] at hok
          rw [hl] at hlen
          exact ⟨hok.2.symm, fun hc => absurd hc hlen⟩

/-- State after consolidating slot 0 of holder 5 in `sampleState`: token 2's
40 units were moved into token 1. -/
def sampleStateOpt : ContractState :=
  { sampleState with
    tokens := [(1, ⟨5, 0, 140⟩), (2, ⟨5, 0, 0⟩), (3, ⟨6, 1, 25⟩)] }

/-- C7 witness: on `sampleState`, holder 5's slot 0 holds tokens 1 and 2, so
the benchmark variant merges one token and reports 1 = 2 - 1. -/
theorem benchmarkOptimizeSlot_equiv_witness :
    ((benchmarkOptimizeSlot sampleState 5 0).map Prod.fst =
      optimizeSlot sampleState 5 0) ∧
    (1 = (tokensOfOwnerBySlot sampleState 5 0).length - 1 ∧
     ((tokensOfOwnerBySlot sampleState 5 0).length ≤ 1 → 1 = 0)) :=
  ⟨(benchmarkOptimizeSlot_equiv_optimizeSlot sampleState 5 0).1,
   (benchmarkOptimizeSlot_equiv_optimizeSlot sampleState 5 0).2
     sampleStateOpt 1 (by rfl)⟩

/-! Infrastructure for the idempotence of optimizeSlot. -/

theorem balanceOfToken_ok_iff {st : ContractState} {t : TokenId} {bal : Nat} :
    balanceOfToken st t = .ok bal ↔
      ∃ d, lookupToken st t = some d ∧ d.value = bal := by
  unfold balanceOfToken
  cases h : lookupToken st t <;> simp

/-- Keys together with owner and slot of every record; the value is erased. -/
def tokenShape (l : List (TokenId × TokenData)) : List (TokenId × Address × Slot) :=
  l.map (fun p => (p.1, p.2.owner, p.2.slot))

theorem tokenShape_updateValue (l : List (TokenId × TokenData)) (id : TokenId)
    (f : Nat → Nat) : tokenShape (updateValue l id f) = tokenShape l := by
  unfold tokenShape updateValue
  induction l with
  | nil => rfl
  | cons p rest ih =>
      simp only [List.map_cons, ih, List.cons.injEq, and_true]
      by_cases h : p.1 = id <;> simp [h]

theorem transferValue_shape {st st1 : ContractState} {a b : TokenId} {amt : Nat}
    (h : _transferValue st a b amt = .ok st1) :
    tokenShape st1.tokens = tokenShape st.tokens := by
  unfold _transferValue at h
  split at h
  · split at h
    · simp at h
    · split at h
      · simp at h
      · simp only [Except.ok.injEq] at h
        subst h
        rw [show ({ st with
            tokens := (updateValue (updateValue st.tokens a (fun x => x - amt)) b
              (fun x => x + amt)) } : ContractState).tokens =
            updateValue (updateValue st.tokens a (fun x => x - amt)) b
              (fun x => x + amt) from rfl,
          tokenShape_updateValue, tokenShape_updateValue]
  · simp at h

theorem mergeLoop_shape (target : TokenId) :
    ∀ (l : List TokenId) (st st1 : ContractState),
      mergeLoop target l st = .ok st1 →
      tokenShape st1.tokens = tokenShape st.tokens
  | [], st, st1, h => by
      simp only [mergeLoop, Except.ok.injEq] at h
      rw [← h]
  | t0 :: rest, st, st1, h => by
      simp only [mergeLoop] at h
      rw [bind_ok_iff] at h
      obtain ⟨bal, hbal, h2⟩ := h
      split at h2
      · rw [bind_ok_iff] at h2
        obtain ⟨st2, htr, hloop⟩ := h2
        rw [mergeLoop_shape target rest st2 st1 hloop, transferValue_shape htr]
      · exact mergeLoop_shape target rest st st1 h2

theorem filter_keys_eq_of_shape (owner : Address) (slot : Slot) :
    ∀ (l l1 : List (TokenId × TokenData)), tokenShape l = tokenShape l1 →
      (l.filter (fun p => p.2.owner == owner && p.2.slot == slot)).map Prod.fst =
      (l1.filter (fun p => p.2.owner == owner && p.2.slot == slot)).map Prod.fst
  | [], [], _ => rfl
  | [], q :: l1, h => by simp [tokenShape] at h
  | p :: l, [], h => by simp [tokenShape] at h
  | p :: l, q :: l1, h => by
      simp only [tokenShape, List.map_cons, List.cons.injEq, Prod.mk.injEq] at h
      obtain ⟨⟨h1, h2, h3⟩, htail⟩ := h
      have htl := filter_keys_eq_of_shape owner slot l l1 htail
      cases hc : (q.2.owner == owner && q.2.slot == slot) with
      | false => simp [List.filter_cons, h2, h3, hc, htl]
      | true => simp [List.filter_cons, h2, h3, hc, h1, htl]

theorem tokensOfOwnerBySlot_eq_of_shape {st st1 : ContractState}
    (h : tokenShape st1.tokens = tokenShape st.tokens) (owner : Address)
    (slot : Slot) :
    tokensOfOwnerBySlot st1 owner slot = tokensOfOwnerBySlot st owner slot :=
  filter_keys_eq_of_shape owner slot st1.tokens st.tokens h

theorem transferValue_lookup_other {st st1 : ContractState} {a b : TokenId}
    {amt : Nat} (h : _transferValue st a b amt = .ok st1) (t : TokenId)
    (hta : t ≠ a) (htb : t ≠ b) : lookupToken st1 t = lookupToken st t := by
  unfold _transferValue at h
  split at h
  · split at h
    · simp at h
    · split at h
      · simp at h
      · simp only [Except.ok.injEq] at h
        subst h
        simp only [lookupToken]
        rw [lookup_updateValue_ne _ _ _ _ htb, lookup_updateValue_ne _ _ _ _ hta]
  · simp at h

theorem transferValue_lookup_from {st st1 : ContractState} {a b : TokenId}
    {amt : Nat} (h : _transferValue st a b amt = .ok st1) (hab : a ≠ b)
    (fd : TokenData) (hfd : lookupToken st a = some fd) :
    lookupToken st1 a = some { fd with value := fd.value - amt } := by
  unfold _transferValue at h
  rw [hfd] at h
  cases hb : lookupToken st b with
  | none => rw [hb] at h; simp at h
  | some td =>
      rw [hb] at h
      dsimp only at h
      split at h
      · simp at h
      · split at h
        · simp at h
        · simp only [Except.ok.injEq] at h
          subst h
          simp only [lookupToken]
          rw [lookup_updateValue_ne _ _ _ _ hab, lookup_updateValue_self]
          simp only [lookupToken] at hfd
          simp [hfd]

theorem mergeLoop_untouched (target : TokenId) :
    ∀ (l : List TokenId) (st st1 : ContractState),
      mergeLoop target l st = .ok st1 →
      ∀ t, t ∉ l → t ≠ target → lookupToken st1 t = lookupToken st t
  | [], st, st1, h, t, _, _ => by
      simp only [mergeLoop, Except.ok.injEq] at h
      rw [← h]
  | t0 :: rest, st, st1, h, t, hnin, hnt => by
      simp only [mergeLoop] at h
      rw [bind_ok_iff] at h
      obtain ⟨bal, hbal, h2⟩ := h
      have htne : t ≠ t0 := fun he => hnin (he ▸ List.mem_cons_self _ _)
      have hrest : t ∉ rest := fun hr => hnin (List.mem_cons_of_mem _ hr)
      split at h2
      · rw [bind_ok_iff] at h2
        obtain ⟨st2, htr, hloop⟩ := h2
        rw [mergeLoop_untouched target rest st2 st1 hloop t hrest hnt,
            transferValue_lookup_other htr t htne hnt]
      · exact mergeLoop_untouched target rest st st1 h2 t hrest hnt

theorem mergeLoop_zeroes (target : TokenId) :
    ∀ (l : List TokenId) (st st1 : ContractState),
      mergeLoop target l st = .ok st1 → l.Nodup → target ∉ l →
      ∀ t ∈ l, ∃ d, lookupToken st1 t = some d ∧ d.value = 0
  | [], _, _, _, _, _, t, ht => absurd ht (List.not_mem_nil t)
  | t0 :: rest, st, st1, h, hnd, htn, t, ht => by
      simp only [mergeLoop] at h
      rw [bind_ok_iff] at h
      obtain ⟨bal, hbal, h2⟩ := h
      rw [balanceOfToken_ok_iff] at hbal
      obtain ⟨d0, hd0, hd0v⟩ := hbal
      have hndr : rest.Nodup := (List.nodup_cons.mp hnd).2
      have ht0r : t0 ∉ rest := (List.nodup_cons.mp hnd).1
      have htarget0 : target ≠ t0 := fun he => htn (he ▸ List.mem_cons_self _ _)
      have htargetr : target ∉ rest := fun hr => htn (List.mem_cons_of_mem _ hr)
      split at h2
      · rw [bind_ok_iff] at h2
        obtain ⟨st2, htr, hloop⟩ := h2
        rcases List.mem_cons.mp ht with he | hr
        · subst he
          have h02 : lookupToken st2 t = some { d0 with value := d0.value - bal } :=
            transferValue_lookup_from htr (fun he2 => htarget0 he2.symm) d0 hd0
          have h01 : lookupToken st1 t = lookupToken st2 t :=
            mergeLoop_untouched target rest st2 st1 hloop t ht0r
              (fun he2 => htarget0 he2.symm)
          refine ⟨_, h01.trans h02, ?_⟩
          simp [hd0v]
        · exact mergeLoop_zeroes target rest st2 st1 hloop hndr htargetr t hr
      · rename_i hbal0
        rcases List.mem_cons.mp ht with he | hr
        · subst he
          have h01 : lookupToken st1 t = lookupToken st t :=
            mergeLoop_untouched target rest st st1 h2 t ht0r
              (fun he2 => htarget0 he2.symm)
          exact ⟨d0, h01.trans hd0, by omega⟩
        · exact mergeLoop_zeroes target rest st st1 h2 hndr htargetr t hr

theorem mergeLoop_noop (target : TokenId) :
    ∀ (l : List TokenId) (st : ContractState),
      (∀ t ∈ l, ∃ d, lookupToken st t = some d ∧ d.value = 0) →
      mergeLoop target l st = .ok st
  | [], _, _ => rfl
  | t0 :: rest, st, h => by
      obtain ⟨d0, hd0, hv⟩ := h t0 (List.mem_cons_self _ _)
      have hbal : balanceOfToken st t0 = .ok 0 := by
        rw [balanceOfToken_ok_iff]
        exact ⟨d0, hd0, hv⟩
      simp only [mergeLoop]
      rw [hbal, ok_bind, if_neg (lt_irrefl 0)]
      exact mergeLoop_noop target rest st
        (fun t ht => h t (List.mem_cons_of_mem _ ht))

theorem tokensOfOwnerBySlot_nodup (st : ContractState) (hwf : wf st)
    (owner : Address) (slot : Slot) : (tokensOfOwnerBySlot st owner slot).Nodup := by
  have hsub : List.Sublist
      ((st.tokens.filter
        (fun p => p.2.owner == owner && p.2.slot == slot)).map Prod.fst)
      (st.tokens.map Prod.fst) := (List.filter_sublist _).map Prod.fst
  exact List.Nodup.sublist hsub hwf.2

/-- Second call of optimizeSlot after a committed first call is a no-op:
the consolidated slot still lists the same tokens, but every non-target token
now has balance 0 and is skipped. -/
theorem optimizeSlot_idem_ok (st st1 : ContractState) (caller : Address)
    (slot : Slot) (hwf : wf st) (h : optimizeSlot st caller slot = .ok st1) :
    optimizeSlot st1 caller slot = .ok st1 := by
  simp only [optimizeSlot] at h ⊢
  by_cases hlen : (tokensOfOwnerBySlot st caller slot).length ≤ 1
  · rw [if_pos hlen] at h
    simp only [Except.ok.injEq] at h
    subst h
    rw [if_pos hlen]
  · rw [if_neg hlen] at h
    cases hl : tokensOfOwnerBySlot st caller slot with
    | nil => rw [hl] at hlen; simp at hlen
    | cons target rest =>
        rw [hl] at h hlen
        change mergeLoop target rest st = .ok st1 at h
        have hshape : tokenShape st1.tokens = tokenShape st.tokens :=
          mergeLoop_shape target rest st st1 h
        have hlist1 : tokensOfOwnerBySlot st1 caller slot = target :: rest := by
          rw [tokensOfOwnerBySlot_eq_of_shape hshape, hl]
        have hnd : (target :: rest).Nodup :=
          hl ▸ tokensOfOwnerBySlot_nodup st hwf caller slot
        have hzero : ∀ t ∈ rest, ∃ d, lookupToken st1 t = some d ∧ d.value = 0 :=
          mergeLoop_zeroes target rest st st1 h (List.nodup_cons.mp hnd).2
            (List.nodup_cons.mp hnd).1
        rw [hlist1, if_neg hlen]
        exact mergeLoop_noop target rest st1 hzero

/-- C8: calling optimizeSlot twice in succession, with no intervening
operation, yields the same final state as calling it once (whether the first
call commits or reverts). -/
theorem optimizeSlot_twice_eq_once (st : ContractState) (caller : Address)
    (slot : Slot) (hwf : wf st) :
    run (run st (Op.optimizeSlot caller slot)) (Op.optimizeSlot caller slot) =
      run st (Op.optimizeSlot caller slot) := by
  simp only [run, step]
  cases h : optimizeSlot st caller slot with
  | error e => rw [h]
  | ok st1 =>
      dsimp only
      rw [optimizeSlot_idem_ok st st1 caller slot hwf h]

/-- C8 witness: consolidating holder 5's slot 0 of `sampleState` twice gives
the state of a single consolidation. -/
theorem optimizeSlot_twice_witness :
    run (run sampleState (Op.optimizeSlot 5 0)) (Op.optimizeSlot 5 0) =
      run sampleState (Op.optimizeSlot 5 0) :=
  optimizeSlot_twice_eq_once sampleState 5 0 (by decide)

end IoTSFT
